import Mathlib

/-!
Verification of the agent-rules build pipeline (madebywild/agent-rules).

This file embeds the JavaScript source shallowly in Lean:

* YAML front-matter values (as decoded by gray-matter) are modelled by
  `YamlVal`; a JavaScript object is an association list built left to
  right where a later entry for the same key shadows an earlier one,
  exactly as in an object literal `{a: x, ...rest}` (`jsGet` therefore
  returns the value of the *last* matching entry).
* `a ++ b` on association lists models the spread `{...a, ...b}`.
* The JS nullish-coalescing operator `??` (which skips `null` and
  `undefined`) is modelled by `jsCoalesce` on `Option YamlVal`, with
  `none` playing `undefined` and `YamlVal.null` playing `null`.
* JS `String.prototype.trim` / `trimStart` are modelled character-wise
  over the ASCII whitespace characters (space, tab, CR, LF), which is
  exact for every input appearing in this development.

Stateful providers become explicit state passing (an aggregate
provider's buffer is a `String` threaded through `aggHandle`); the
orchestrator `buildRules` produces the trace of provider lifecycle
calls it issues, in the order the `await` structure of the source
issues them.
-/

/-- A YAML value as decoded into a JavaScript value by gray-matter. -/
inductive YamlVal where
  | str (s : String)
  | bool (b : Bool)
  | num (n : Int)
  | null
  | arr (items : List YamlVal)
  | obj (fields : List (String × YamlVal))

/-- A JavaScript object: an association list, later entries shadow earlier
ones (see `jsGet`). -/
abbrev JsObj := List (String × YamlVal)

/-- Lookup in a JavaScript object: the value of the last entry with the key,
`none` when the key is absent (JS `undefined`). -/
def jsGet (o : JsObj) (k : String) : Option YamlVal :=
  o.foldl (fun acc kv => if kv.1 = k then some kv.2 else acc) none

/-- JS `a ?? b`: `b` when `a` is `undefined` (`none`) or `null`, else `a`. -/
def jsCoalesce (a b : Option YamlVal) : Option YamlVal :=
  match a with
  | none => b
  | some .null => b
  | some v => some v

/-- JS `a ?? d` where `d` is a present default value. -/
def jsCoalesceD (a : Option YamlVal) (d : YamlVal) : YamlVal :=
  match a with
  | none => d
  | some .null => d
  | some v => v

/-- JS truthiness of a possibly-absent value (`undefined`, `null`, `false`,
`0` and `""` are falsy; every object and array is truthy). -/
def jsTruthy : Option YamlVal → Bool
  | none => false
  | some .null => false
  | some (.bool b) => b
  | some (.num n) => n != 0
  | some (.str s) => s != ""
  | some (.arr _) => true
  | some (.obj _) => true

/-- Whitespace stripped by the JS string trimming used in the sources
(all occurring inputs only ever carry ASCII whitespace). -/
def isJsWs (c : Char) : Bool :=
  c = ' ' || c = '\t' || c = '\r' || c = '\n'

/-- JS `String.prototype.trimStart`. -/
def jsTrimStart (s : String) : String :=
  String.mk (s.data.dropWhile isJsWs)

/-- JS `String.prototype.trim`. -/
def jsTrim (s : String) : String :=
  String.mk (((s.data.dropWhile isJsWs).reverse.dropWhile isJsWs).reverse)

/-- Concatenation of a list of strings. -/
def joinAll : List String → String
  | [] => ""
  | s :: rest => s ++ joinAll rest

/-- Concatenation with a separator between consecutive elements. -/
def joinSep (sep : String) : List String → String
  | [] => ""
  | [s] => s
  | s :: rest => s ++ sep ++ joinSep sep rest

mutual

/-- JS template-literal stringification `${v}` of a YAML value:
strings unchanged, `String(true) = "true"`, arrays joined by commas,
plain objects rendered `[object Object]`. -/
def YamlVal.display : YamlVal → String
  | .str s => s
  | .bool b => if b then "true" else "false"
  | .num n => toString n
  | .null => "null"
  | .obj _ => "[object Object]"
  | .arr items => YamlVal.displayList items

/-- Array stringification: element displays joined by commas. -/
def YamlVal.displayList : List YamlVal → String
  | [] => ""
  | [v] => YamlVal.display v
  | v :: rest => YamlVal.display v ++ "," ++ YamlVal.displayList rest

end

/-- The merge `{...frontMatter, ...(frontMatter[pid] ?? {})}` every provider
performs: the provider-named sub-object shadows the top level key for key.
When the sub-key holds a non-object value, its JS spread contributes only
array/string index keys (never one of the named fields consulted
afterwards), so the merge is modelled as the identity there. -/
def providerMerge (fm : JsObj) (pid : String) : JsObj :=
  match jsGet fm pid with
  | some (.obj sub) => fm ++ sub
  | _ => fm

/-- Section heading built by the aggregate providers
(`ClaudeProvider.handle`, `ReplitProvider.handle`, `OpenAIProvider.handle`):
```## ${yaml.title ?? yaml.description ?? "Untitled"}`` over the merged
front-matter. -/
def aggHeader (pid : String) (fm : JsObj) : String :=
  "## " ++ (jsCoalesceD
    (jsCoalesce (jsGet (providerMerge fm pid) "title")
      (jsGet (providerMerge fm pid) "description"))
    (.str "Untitled")).display

/-- One aggregate `handle` call: append
`"\n\n" + header + "\n\n" + content.trim() + "\n"` to the buffer. -/
def aggHandle (pid : String) (buffer : String) (fm : JsObj) (content : String) : String :=
  buffer ++ "\n\n" ++ aggHeader pid fm ++ "\n\n" ++ jsTrim content ++ "\n"

/-- The aggregate `finish` step: the file contents written out,
`buffer.trimStart() + "\n"`. -/
def aggFinishFile (buffer : String) : String :=
  jsTrimStart buffer ++ "\n"

/-- A whole aggregate-provider episode: `init` (buffer reset to `""`), the
`handle` calls for `inputs` in order, then `finish`; returns the written
file contents. -/
def aggRun (pid : String) (inputs : List (JsObj × String)) : String :=
  aggFinishFile (inputs.foldl (fun b x => aggHandle pid b x.1 x.2) "")

/-- The JS `path.parse(filename).name`: the part after the last `/`, with the last
extension removed (a leading dot of a dotfile is not an extension). -/
def fileStem (s : String) : String :=
  let base := (s.data.reverse.takeWhile (fun c => c ≠ '/')).reverse
  let ext := base.reverse.takeWhile (fun c => c ≠ '.')
  if ext.length = base.length || ext.length + 1 = base.length then String.mk base
  else String.mk (base.take (base.length - ext.length - 1))

/-- Derived retrieval strategy of `CursorProvider.handle`:
`yaml["retrieval-strategy"] ?? (yaml.alwaysApply ? "always" : undefined)`. -/
def cursorRetrieval (yaml : JsObj) : Option YamlVal :=
  jsCoalesce (jsGet yaml "retrieval-strategy")
    (if jsTruthy (jsGet yaml "alwaysApply") then some (.str "always") else none)

/-- The three defaulted leading fields of `CursorProvider.handle`'s output
object: `description ?? path.parse(filename).name`, `globs ?? []`,
`alwaysApply ?? false`. -/
def cursorBase (filename : String) (yaml : JsObj) : JsObj :=
  [("description", jsCoalesceD (jsGet yaml "description") (.str (fileStem filename))),
   ("globs", jsCoalesceD (jsGet yaml "globs") (.arr [])),
   ("alwaysApply", jsCoalesceD (jsGet yaml "alwaysApply") (.bool false))]

/-- The front-matter object `CursorProvider.handle` passes to
`matter.stringify`: defaulted `description`/`globs`/`alwaysApply`, the merged
front-matter spread over them, then — after the spread, so that it wins —
the derived `retrieval-strategy` when it is defined.  (JS assignment to an
existing key keeps its position; with last-entry-wins lookup, appending is
observationally the same.) -/
def cursorOutput (filename : String) (fm : JsObj) : JsObj :=
  match cursorRetrieval (providerMerge fm "cursor") with
  | some v => (cursorBase filename (providerMerge fm "cursor") ++ providerMerge fm "cursor")
      ++ [("retrieval-strategy", v)]
  | none => cursorBase filename (providerMerge fm "cursor") ++ providerMerge fm "cursor"

/-- Split on commas, keeping empty pieces (JS `s.split(",")`). -/
def splitCommaAux : List Char → List Char → List String
  | [], acc => [String.mk acc.reverse]
  | c :: rest, acc =>
    if c = ',' then String.mk acc.reverse :: splitCommaAux rest []
    else splitCommaAux rest (c :: acc)

/-- JS `s.split(",")`. -/
def splitComma (s : String) : List String :=
  splitCommaAux s.data []

/-- Modelled from the spec: the routing-directive parser of the current
`src/utils.js` is not in the source snapshot (only `test/providerFiltering.test.js`
imports it).  Spec §3/§4.3: a directive is a comma-separated list of provider
ids, whitespace around entries ignored, empty entries dropped; §7: malformed
(non-string) directive values degrade silently to "no match". -/
def parseProviderList (v : Option YamlVal) : List String :=
  match v with
  | some (.str s) => ((splitComma s).map jsTrim).filter (fun e => !(e == ""))
  | _ => []

/-- A provider as the orchestrator sees it: its id.  (The lifecycle
behaviour behind `init`/`handle`/`finish` is each provider's own and is
modelled separately; the orchestrator only issues the calls.) -/
structure Provider where
  id : String

/-- Modelled from the spec: `filterProvidersForRule` of the current
`src/utils.js` is not in the source snapshot (only the tests import it).
Spec §4.3 `selectProviders`: a non-empty `_includeOnlyForProviders` list is
the sole source of truth (keep exactly the named active providers);
otherwise a non-empty `_excludeForProviders` removes the named ones;
otherwise all providers pass. -/
def filterProvidersForRule (providers : List Provider) (fm : JsObj) : List Provider :=
  if (parseProviderList (jsGet fm "_includeOnlyForProviders")).isEmpty then
    providers.filter
      (fun p => !((parseProviderList (jsGet fm "_excludeForProviders")).contains p.id))
  else
    providers.filter
      (fun p => (parseProviderList (jsGet fm "_includeOnlyForProviders")).contains p.id)

/-- Modelled from the spec: `cleanFrontMatter` of the current `src/utils.js`
is not in the source snapshot (only the tests import it).  Spec §4.3
`stripDirectives`: a copy of the front-matter with the two directive keys
removed and every other key untouched. -/
def cleanFrontMatter (fm : JsObj) : JsObj :=
  fm.filter (fun kv =>
    !(kv.1 == "_includeOnlyForProviders") && !(kv.1 == "_excludeForProviders"))

/-- One provider lifecycle call (or file read) issued by the orchestrator. -/
inductive Event where
  | initCall (pid : String)
  | readCall (filename : String)
  | handleCall (pid : String) (filename : String) (fm : JsObj) (content : String)
  | finishCall (pid : String)

/-- The calls issued for one discovered file in `buildRules`' loop body:
the `fs.readFile`+`matter` read (modelled by `readAndParse`), then the
`handle` fan-out over the per-rule provider subset with the cleaned
front-matter.  The subset/cleaning step is modelled from the spec (see
`filterProvidersForRule`, `cleanFrontMatter`); the read and fan-out are
`src/index.js`'s loop body. -/
def fileEvents (providers : List Provider) (readAndParse : String → JsObj × String)
    (filename : String) : List Event :=
  Event.readCall filename ::
    (filterProvidersForRule providers (readAndParse filename).1).map
      (fun p => Event.handleCall p.id filename
        (cleanFrontMatter (readAndParse filename).1) (readAndParse filename).2)

/-- The orchestrator `buildRules` of `src/index.js` as the trace of calls it
issues: source-directory check, discovery short-circuits (empty result set,
then dry run — both return without any provider work), then the three
awaited phases: every provider's `init`, the sequential per-file loop whose
`handle` fan-out completes before the next file is read, and every
provider's `finish`.  Discovery (`fastGlob.sync`) and parsing
(`gray-matter`) are external capabilities, passed in as the discovered
`files` list and the `readAndParse` function. -/
def buildRules (dirExists : Bool) (providers : List Provider) (files : List String)
    (readAndParse : String → JsObj × String) (dryRun : Bool) :
    Except String (List Event) :=
  if !dirExists then Except.error "Source directory not found"
  else if files.isEmpty then Except.ok []
  else if dryRun then Except.ok []
  else Except.ok
    ((providers.map fun p => Event.initCall p.id)
      ++ (files.flatMap (fileEvents providers readAndParse))
      ++ (providers.map fun p => Event.finishCall p.id))

/-- First-defined-wins disjunction on optional values (used to phrase
lookups through `++`, the object spread). -/
def oOr (a b : Option YamlVal) : Option YamlVal :=
  match a with
  | none => b
  | some v => some v

/-- Providers of the end-to-end scenario of spec §8. -/
def scenarioProviders : List Provider :=
  [{ id := "cursor" }, { id := "cline" }, { id := "claude" }]

/-- Reader of the end-to-end scenario of spec §8: `a.md` has front-matter
`{title: "A"}`, `b.md` has `{_excludeForProviders: "claude"}`. -/
def scenarioRead : String → JsObj × String := fun f =>
  if f = "a.md" then ([("title", YamlVal.str "A")], "Content A")
  else if f = "b.md" then ([("_excludeForProviders", YamlVal.str "claude")], "Content B")
  else ([], "")

/-- Filenames a given provider's `handle` receives, in call order. -/
def handledFiles (pid : String) (t : List Event) : List String :=
  t.filterMap (fun e => match e with
    | Event.handleCall p f _ _ => if p = pid then some f else none
    | _ => none)

/-- Recognizer for the `init` call of a given provider id. -/
def isInitOf (pid : String) : Event → Bool
  | Event.initCall p => p == pid
  | _ => false

/-- Recognizer for the `finish` call of a given provider id. -/
def isFinishOf (pid : String) : Event → Bool
  | Event.finishCall p => p == pid
  | _ => false

/-- One aggregate provider's own view of one orchestrator event: its
`handle` calls mutate its buffer, everything else leaves it alone. -/
def aggTraceStep (pid : String) (b : String) (e : Event) : String :=
  match e with
  | Event.handleCall p _ fm c => if p = pid then aggHandle pid b fm c else b
  | _ => b

/-- The buffer an aggregate provider has accumulated after a trace. -/
def aggBufferOfTrace (pid : String) (t : List Event) : String :=
  t.foldl (aggTraceStep pid) ""

/-- One rendered section: heading, blank line, trimmed body, newline. -/
def aggSection (pid : String) (fm : JsObj) (content : String) : String :=
  aggHeader pid fm ++ "\n\n" ++ jsTrim content ++ "\n"

/-- The buffer growth an event causes for an aggregate provider. -/
def eventSection (pid : String) : Event → String
  | Event.handleCall p _ fm c => if p = pid then "\n\n" ++ aggSection pid fm c else ""
  | _ => ""

/-- The aggregate output rendered independently from the discovery list:
one section per file routed to the provider, in discovery-list order. -/
def orderedRender (pid : String) (providers : List Provider) (files : List String)
    (rp : String → JsObj × String) : String :=
  joinAll (files.map (fun f =>
    if (filterProvidersForRule providers (rp f).1).any (fun p => p.id == pid)
    then "\n\n" ++ aggSection pid (cleanFrontMatter (rp f).1) (rp f).2
    else ""))

/-- Number of newline characters the string ends with. -/
def trailingNewlines (s : String) : Nat :=
  (s.data.reverse.takeWhile (fun c => c = '\n')).length

/-- The shape the amended C4 asserts for an aggregate run: a lone newline
for an empty run, otherwise the sections joined by a blank line with one
extra newline appended by `finish` (so the file ends in two newlines). -/
def aggSpecRender (pid : String) (inputs : List (JsObj × String)) : String :=
  match inputs with
  | [] => "\n"
  | _ :: _ => joinSep "\n\n" (inputs.map (fun x => aggSection pid x.1 x.2)) ++ "\n"

/-- The provider-named override block of a front-matter object (`{}` when
absent or not an object). -/
def overrideBlock (fm : JsObj) (pid : String) : JsObj :=
  match jsGet fm pid with
  | some (.obj sub) => sub
  | _ => []

/-- The heading value exactly as claim C5 words it: the provider-specific
override title when present, else the top-level title, else the top-level
description, else "Untitled". -/
def claimHeaderVal (pid : String) (fm : JsObj) : YamlVal :=
  jsCoalesceD
    (jsCoalesce (jsGet (overrideBlock fm pid) "title")
      (jsCoalesce (jsGet fm "title") (jsGet fm "description")))
    (.str "Untitled")

/-- The heading value with the corrected priority chain: the override block
shadows the top level key for key (title slot first, then description
slot), else "Untitled". -/
def amendedHeaderVal (pid : String) (fm : JsObj) : YamlVal :=
  jsCoalesceD
    (jsCoalesce (oOr (jsGet (overrideBlock fm pid) "title") (jsGet fm "title"))
      (oOr (jsGet (overrideBlock fm pid) "description") (jsGet fm "description")))
    (.str "Untitled")

theorem jsGet_foldl (k : String) (b : JsObj) :
    ∀ x, b.foldl (fun acc kv => if kv.1 = k then some kv.2 else acc) x
      = oOr (jsGet b k) x := by
  induction b with
  | nil => intro x; rfl
  | cons kv rest ih =>
    intro x
    show List.foldl _ (if kv.1 = k then some kv.2 else x) rest = _
    rw [ih]
    show _ = oOr (List.foldl _ (if kv.1 = k then some kv.2 else none) rest) x
    rw [ih]
    by_cases h : kv.1 = k <;> simp [h] <;> cases jsGet rest k <;> simp [oOr]

theorem jsGet_append (a b : JsObj) (k : String) :
    jsGet (a ++ b) k = oOr (jsGet b k) (jsGet a k) := by
  show List.foldl _ none (a ++ b) = _
  rw [List.foldl_append, jsGet_foldl]
  rfl

theorem jsGet_eq_none_of_all (o : JsObj) (k : String)
    (h : ∀ kv ∈ o, ¬(kv.1 = k)) : jsGet o k = none := by
  induction o with
  | nil => rfl
  | cons kv rest ih =>
    show List.foldl _ (if kv.1 = k then some kv.2 else none) rest = none
    rw [jsGet_foldl, ih fun x hx => h x (List.mem_cons_of_mem _ hx),
      if_neg (h kv (List.mem_cons_self _ _))]
    rfl

theorem joinAll_append (l1 l2 : List String) :
    joinAll (l1 ++ l2) = joinAll l1 ++ joinAll l2 := by
  induction l1 with
  | nil => simp [joinAll, String.empty_append]
  | cons s rest ih => simp [joinAll, ih, String.append_assoc]

theorem foldl_acc_join {α : Type} (st : String → α → String) (d : α → String)
    (h : ∀ b x, st b x = b ++ d x) :
    ∀ (l : List α) (b : String), l.foldl st b = b ++ joinAll (l.map d) := by
  intro l
  induction l with
  | nil => intro b; simp [joinAll, String.append_empty]
  | cons x xs ih =>
    intro b
    show List.foldl st (st b x) xs = _
    rw [ih, h, List.map_cons]
    show _ = b ++ (d x ++ joinAll (xs.map d))
    rw [String.append_assoc]

theorem joinAll_eq_empty_of (l : List String) (h : ∀ s ∈ l, s = "") :
    joinAll l = "" := by
  induction l with
  | nil => rfl
  | cons s rest ih =>
    show s ++ joinAll rest = ""
    rw [h s (List.mem_cons_self _ _), ih fun x hx => h x (List.mem_cons_of_mem _ hx)]
    rfl

theorem filter_map_id (l : List Provider) (q : String → Bool) :
    (l.filter (fun p => q p.id)).map Provider.id = (l.map Provider.id).filter q := by
  induction l with
  | nil => rfl
  | cons p rest ih =>
    by_cases h : q p.id = true <;> simp [List.filter_cons, h, ih]

/-- Everything `cleanFrontMatter` hands on: no entry carries a routing
directive key, so looking either key up yields `undefined`. -/
theorem cleanFrontMatter_spec (fm : JsObj) :
    jsGet (cleanFrontMatter fm) "_includeOnlyForProviders" = none
    ∧ jsGet (cleanFrontMatter fm) "_excludeForProviders" = none
    ∧ ∀ kv ∈ cleanFrontMatter fm,
        ¬(kv.1 = "_includeOnlyForProviders") ∧ ¬(kv.1 = "_excludeForProviders") := by
  have hmem : ∀ kv ∈ cleanFrontMatter fm,
      ¬(kv.1 = "_includeOnlyForProviders") ∧ ¬(kv.1 = "_excludeForProviders") := by
    intro kv hkv
    have hp := (List.mem_filter.mp hkv).2
    constructor <;> intro hk <;> rw [hk] at hp <;> simp at hp
  exact ⟨jsGet_eq_none_of_all _ _ (fun kv hkv => (hmem kv hkv).1),
    jsGet_eq_none_of_all _ _ (fun kv hkv => (hmem kv hkv).2), hmem⟩

/-- C2: a non-empty `_includeOnlyForProviders` list routes the rule to
exactly the active providers whose id is in the list (the intersection of
the parsed entries with the active ids, in active order), whatever
`_excludeForProviders` holds. -/
theorem include_directive_sole_routing (providers : List Provider) (fm : JsObj)
    (h : parseProviderList (jsGet fm "_includeOnlyForProviders") ≠ []) :
    (filterProvidersForRule providers fm).map Provider.id
      = (providers.map Provider.id).filter
          (fun i => (parseProviderList (jsGet fm "_includeOnlyForProviders")).contains i) := by
  unfold filterProvidersForRule
  cases hl : parseProviderList (jsGet fm "_includeOnlyForProviders") with
  | nil => exact absurd hl h
  | cons a as =>
    simp only [List.isEmpty_cons, Bool.false_eq_true, if_false]
    exact filter_map_id providers (fun i => (a :: as).contains i)

/-- C2 witness: with active providers cursor, cline, claude and directive
`"cursor,unknown"`, exactly cursor is routed to. -/
theorem include_directive_sole_routing_witness :
    (filterProvidersForRule scenarioProviders
        [("_includeOnlyForProviders", YamlVal.str "cursor,unknown")]).map Provider.id
      = (scenarioProviders.map Provider.id).filter
          (fun i => (parseProviderList (jsGet
              [("_includeOnlyForProviders", YamlVal.str "cursor,unknown")]
              "_includeOnlyForProviders")).contains i) :=
  include_directive_sole_routing scenarioProviders
    [("_includeOnlyForProviders", YamlVal.str "cursor,unknown")] (by decide)

/-- C3: with `_includeOnlyForProviders` absent, the rule is routed to the
active set minus the ids named by `_excludeForProviders` (unknown names
filter nothing); and in the spec §8 end-to-end scenario over `a.md`/`b.md`
with providers cursor, cline, claude, the claude provider handles only
`a.md` while cursor and cline handle both files. -/
theorem exclude_directive_routing :
    (∀ (providers : List Provider) (fm : JsObj),
      jsGet fm "_includeOnlyForProviders" = none →
      (filterProvidersForRule providers fm).map Provider.id
        = (providers.map Provider.id).filter
            (fun i => !((parseProviderList (jsGet fm "_excludeForProviders")).contains i)))
    ∧ Except.map (handledFiles "claude")
        (buildRules true scenarioProviders ["a.md", "b.md"] scenarioRead false)
        = Except.ok ["a.md"]
    ∧ Except.map (handledFiles "cursor")
        (buildRules true scenarioProviders ["a.md", "b.md"] scenarioRead false)
        = Except.ok ["a.md", "b.md"]
    ∧ Except.map (handledFiles "cline")
        (buildRules true scenarioProviders ["a.md", "b.md"] scenarioRead false)
        = Except.ok ["a.md", "b.md"] := by
  refine ⟨fun providers fm h => ?_, rfl, rfl, rfl⟩
  unfold filterProvidersForRule
  rw [h]
  show (providers.filter _).map Provider.id = _
  exact filter_map_id providers
    (fun i => !((parseProviderList (jsGet fm "_excludeForProviders")).contains i))

/-- C3 witness: the general exclusion clause applied to the scenario's
`b.md` front-matter removes exactly claude from the active set. -/
theorem exclude_directive_routing_witness :
    (filterProvidersForRule scenarioProviders
        [("_excludeForProviders", YamlVal.str "claude")]).map Provider.id
      = (scenarioProviders.map Provider.id).filter
          (fun i => !((parseProviderList (jsGet
              [("_excludeForProviders", YamlVal.str "claude")]
              "_excludeForProviders")).contains i)) :=
  exclude_directive_routing.1 scenarioProviders
    [("_excludeForProviders", YamlVal.str "claude")] rfl

/-- C1: in a non-dry-run `buildRules` run, the front-matter object carried
by any `handle` call contains neither routing directive key, whatever keys
the source file's front-matter contained. -/
theorem handle_sees_no_directives (providers : List Provider) (files : List String)
    (rp : String → JsObj × String) (t : List Event) (pid f : String) (fm : JsObj)
    (c : String) (h : buildRules true providers files rp false = Except.ok t)
    (hm : Event.handleCall pid f fm c ∈ t) :
    jsGet fm "_includeOnlyForProviders" = none
    ∧ jsGet fm "_excludeForProviders" = none
    ∧ ∀ kv ∈ fm, ¬(kv.1 = "_includeOnlyForProviders") ∧ ¬(kv.1 = "_excludeForProviders") := by
  cases files with
  | nil =>
    simp [buildRules] at h
    subst h
    exact absurd hm (List.not_mem_nil _)
  | cons f0 fs =>
    simp only [buildRules, Bool.not_true, Bool.false_eq_true, if_false,
      List.isEmpty_cons, Except.ok.injEq] at h
    subst h
    rcases List.mem_append.mp hm with hm' | hF
    · rcases List.mem_append.mp hm' with hI | hmid
      · rcases List.mem_map.mp hI with ⟨p, _, hp⟩
        exact absurd hp (by simp)
      · rcases List.mem_flatMap.mp hmid with ⟨f', _, he⟩
        rcases List.mem_cons.mp he with hr | hh
        · exact absurd hr (by simp)
        · rcases List.mem_map.mp hh with ⟨p, _, hp⟩
          cases hp
          exact cleanFrontMatter_spec _
    · rcases List.mem_map.mp hF with ⟨p, _, hp⟩
      exact absurd hp (by simp)

/-- C1 witness: a one-provider one-file run whose source front-matter
carries `_excludeForProviders`; the handled front-matter has lost it. -/
theorem handle_sees_no_directives_witness :
    jsGet [("x", YamlVal.str "y")] "_includeOnlyForProviders" = none
    ∧ jsGet [("x", YamlVal.str "y")] "_excludeForProviders" = none
    ∧ ∀ kv ∈ ([("x", YamlVal.str "y")] : JsObj),
        ¬(kv.1 = "_includeOnlyForProviders") ∧ ¬(kv.1 = "_excludeForProviders") :=
  handle_sees_no_directives [{ id := "p" }] ["a.md"]
    (fun _ => ([("x", YamlVal.str "y"), ("_excludeForProviders", YamlVal.str "z")], "c"))
    [Event.initCall "p", Event.readCall "a.md",
      Event.handleCall "p" "a.md" [("x", YamlVal.str "y")] "c", Event.finishCall "p"]
    "p" "a.md" [("x", YamlVal.str "y")] "c" rfl
    (List.mem_cons_of_mem _ (List.mem_cons_of_mem _ (List.mem_cons_self _ _)))

/-- C7: a dry run over a non-empty discovery set issues no provider
lifecycle call and reads no file: its trace is empty and it succeeds. -/
theorem dry_run_no_calls (dirExists : Bool) (providers : List Provider)
    (files : List String) (rp : String → JsObj × String)
    (h1 : dirExists = true) (h2 : files ≠ []) :
    buildRules dirExists providers files rp true = Except.ok [] := by
  subst h1
  cases files with
  | nil => exact absurd rfl h2
  | cons f fs => rfl

/-- C7 witness: dry run over the scenario directory. -/
theorem dry_run_no_calls_witness :
    buildRules true scenarioProviders ["a.md", "b.md"] scenarioRead true = Except.ok [] :=
  dry_run_no_calls true scenarioProviders ["a.md", "b.md"] scenarioRead rfl
    (List.cons_ne_nil _ _)

/-- C9: an empty discovery result ends the run successfully with no
provider work at all, dry run or not. -/
theorem empty_discovery_no_work (providers : List Provider)
    (rp : String → JsObj × String) (dryRun : Bool) :
    buildRules true providers [] rp dryRun = Except.ok [] := rfl

theorem countP_init_ids (l : List Provider) (pid : String) :
    (l.map fun p => Event.initCall p.id).countP (isInitOf pid)
      = (l.map Provider.id).countP (fun x => x == pid) := by
  induction l with
  | nil => rfl
  | cons p r ih => simp [List.countP_cons, ih, isInitOf]

theorem countP_finish_ids (l : List Provider) (pid : String) :
    (l.map fun p => Event.finishCall p.id).countP (isFinishOf pid)
      = (l.map Provider.id).countP (fun x => x == pid) := by
  induction l with
  | nil => rfl
  | cons p r ih => simp [List.countP_cons, ih, isFinishOf]

theorem countP_init_finish_zero (l : List Provider) (pid : String) :
    (l.map fun p => Event.finishCall p.id).countP (isInitOf pid) = 0
    ∧ (l.map fun p => Event.initCall p.id).countP (isFinishOf pid) = 0 := by
  constructor <;> rw [List.countP_eq_zero] <;> intro e he <;>
    rcases List.mem_map.mp he with ⟨p, _, hp⟩ <;> subst hp <;> simp [isInitOf, isFinishOf]

theorem mid_no_lifecycle (providers : List Provider) (rp : String → JsObj × String)
    (files : List String) (pid : String) :
    (files.flatMap (fileEvents providers rp)).countP (isInitOf pid) = 0
    ∧ (files.flatMap (fileEvents providers rp)).countP (isFinishOf pid) = 0 := by
  constructor <;> rw [List.countP_eq_zero] <;> intro e he <;>
    rcases List.mem_flatMap.mp he with ⟨f', _, he'⟩ <;>
    rcases List.mem_cons.mp he' with hr | hh
  case _ => subst hr; simp [isInitOf]
  case _ => rcases List.mem_map.mp hh with ⟨p, _, hp⟩; subst hp; simp [isInitOf]
  case _ => subst hr; simp [isFinishOf]
  case _ => rcases List.mem_map.mp hh with ⟨p, _, hp⟩; subst hp; simp [isFinishOf]

/-- C8: a non-dry-run over a non-empty discovery set issues, for every
selected provider, exactly one `init` and exactly one `finish` (also for a
provider with zero `handle` calls), with every `init` before the whole
read/handle middle phase and every `finish` after it. -/
theorem lifecycle_phases (providers : List Provider) (files : List String)
    (rp : String → JsObj × String)
    (hfiles : files ≠ []) (hnodup : (providers.map Provider.id).Nodup) :
    ∃ mid,
      buildRules true providers files rp false
        = Except.ok ((providers.map fun p => Event.initCall p.id) ++ mid
            ++ (providers.map fun p => Event.finishCall p.id))
      ∧ (∀ e ∈ mid, (∃ f, e = Event.readCall f)
          ∨ ∃ p f fm c, e = Event.handleCall p f fm c)
      ∧ ∀ pid ∈ providers.map Provider.id,
          ((providers.map fun p => Event.initCall p.id) ++ mid
            ++ (providers.map fun p => Event.finishCall p.id)).countP (isInitOf pid) = 1
          ∧ ((providers.map fun p => Event.initCall p.id) ++ mid
            ++ (providers.map fun p => Event.finishCall p.id)).countP (isFinishOf pid) = 1 := by
  refine ⟨files.flatMap (fileEvents providers rp), ?_, ?_, ?_⟩
  · cases files with
    | nil => exact absurd rfl hfiles
    | cons f fs => rfl
  · intro e he
    rcases List.mem_flatMap.mp he with ⟨f', _, he'⟩
    rcases List.mem_cons.mp he' with hr | hh
    · exact Or.inl ⟨f', hr⟩
    · rcases List.mem_map.mp hh with ⟨p, _, hp⟩
      exact Or.inr ⟨p.id, f', cleanFrontMatter (rp f').1, (rp f').2, hp.symm⟩
  · intro pid hpid
    have hone : (providers.map Provider.id).countP (fun x => x == pid) = 1 :=
      List.count_eq_one_of_mem hnodup hpid
    rw [List.countP_append, List.countP_append, List.countP_append, List.countP_append,
      countP_init_ids, countP_finish_ids,
      (countP_init_finish_zero providers pid).1, (countP_init_finish_zero providers pid).2,
      (mid_no_lifecycle providers rp files pid).1, (mid_no_lifecycle providers rp files pid).2,
      hone]
    exact ⟨rfl, rfl⟩

/-- C8 witness: the phase shape at the concrete scenario run. -/
theorem lifecycle_phases_witness :
    ∃ mid,
      buildRules true scenarioProviders ["a.md", "b.md"] scenarioRead false
        = Except.ok ((scenarioProviders.map fun p => Event.initCall p.id) ++ mid
            ++ (scenarioProviders.map fun p => Event.finishCall p.id))
      ∧ (∀ e ∈ mid, (∃ f, e = Event.readCall f)
          ∨ ∃ p f fm c, e = Event.handleCall p f fm c)
      ∧ ∀ pid ∈ scenarioProviders.map Provider.id,
          ((scenarioProviders.map fun p => Event.initCall p.id) ++ mid
            ++ (scenarioProviders.map fun p => Event.finishCall p.id)).countP
              (isInitOf pid) = 1
          ∧ ((scenarioProviders.map fun p => Event.initCall p.id) ++ mid
            ++ (scenarioProviders.map fun p => Event.finishCall p.id)).countP
              (isFinishOf pid) = 1 :=
  lifecycle_phases scenarioProviders ["a.md", "b.md"] scenarioRead
    (List.cons_ne_nil _ _) (by decide)

theorem aggTraceStep_eq (pid : String) (b : String) (e : Event) :
    aggTraceStep pid b e = b ++ eventSection pid e := by
  cases e with
  | handleCall p f fm c =>
    by_cases h : p = pid <;>
      simp [aggTraceStep, eventSection, h, aggHandle, aggSection,
        String.append_assoc, String.append_empty]
  | initCall p => simp [aggTraceStep, eventSection, String.append_empty]
  | readCall f => simp [aggTraceStep, eventSection, String.append_empty]
  | finishCall p => simp [aggTraceStep, eventSection, String.append_empty]

theorem aggBufferOfTrace_eq (pid : String) (t : List Event) :
    aggBufferOfTrace pid t = joinAll (t.map (eventSection pid)) := by
  have h := foldl_acc_join (aggTraceStep pid) (eventSection pid)
    (aggTraceStep_eq pid) t ""
  rw [aggBufferOfTrace, h, String.empty_append]

theorem joinAll_map_flatMap {α β : Type} (g : α → List β) (d : β → String)
    (l : List α) :
    joinAll ((l.flatMap g).map d) = joinAll (l.map (fun a => joinAll ((g a).map d))) := by
  induction l with
  | nil => rfl
  | cons a r ih =>
    rw [List.flatMap_cons, List.map_append, joinAll_append, ih, List.map_cons]
    rfl

theorem joinAll_select (pid : String) (S : String) :
    ∀ (l : List Provider), (l.map Provider.id).Nodup →
      joinAll (l.map (fun p => if p.id = pid then S else ""))
        = if l.any (fun p => p.id == pid) then S else "" := by
  intro l
  induction l with
  | nil => intro _; rfl
  | cons p r ih =>
    intro hnd
    have hnd' : p.id ∉ r.map Provider.id ∧ (r.map Provider.id).Nodup :=
      List.nodup_cons.mp hnd
    by_cases h : p.id = pid
    · have hall : ∀ s ∈ r.map (fun q => if q.id = pid then S else ""), s = "" := by
        intro s hs
        rcases List.mem_map.mp hs with ⟨q, hq, hqe⟩
        have hqne : ¬(q.id = pid) := by
          intro he
          exact hnd'.1 (h ▸ he ▸ List.mem_map_of_mem Provider.id hq)
        rw [if_neg hqne] at hqe
        exact hqe.symm
      show (if p.id = pid then S else "") ++ joinAll _ = _
      rw [if_pos h, joinAll_eq_empty_of _ hall, String.append_empty]
      have hb : (p.id == pid) = true := by simp [h]
      simp [List.any_cons, hb]
    · show (if p.id = pid then S else "") ++ joinAll _ = _
      rw [if_neg h, String.empty_append, ih hnd'.2]
      have hb : (p.id == pid) = false := by simp [h]
      simp [List.any_cons, hb]

theorem filterProvidersForRule_sublist (providers : List Provider) (fm : JsObj) :
    (filterProvidersForRule providers fm).Sublist providers := by
  unfold filterProvidersForRule
  by_cases h : (parseProviderList (jsGet fm "_includeOnlyForProviders")).isEmpty = true <;>
    simp [h, List.filter_sublist]

/-- C10: because the per-file `handle` fan-out is awaited before the next
file is read, an aggregate provider's buffer — and hence its written file —
is a function of the discovery list and file contents alone, with sections
exactly in discovery-list order. -/
theorem aggregate_sections_in_discovery_order (providers : List Provider)
    (files : List String) (rp : String → JsObj × String) (pid : String)
    (t : List Event) (hnodup : (providers.map Provider.id).Nodup)
    (h : buildRules true providers files rp false = Except.ok t) :
    aggBufferOfTrace pid t = orderedRender pid providers files rp
    ∧ aggFinishFile (aggBufferOfTrace pid t)
        = aggFinishFile (orderedRender pid providers files rp) := by
  suffices hb : aggBufferOfTrace pid t = orderedRender pid providers files rp by
    exact ⟨hb, by rw [hb]⟩
  cases files with
  | nil =>
    simp [buildRules] at h
    subst h
    rfl
  | cons f0 fs =>
    simp only [buildRules, Bool.not_true, Bool.false_eq_true, if_false,
      List.isEmpty_cons, Except.ok.injEq] at h
    subst h
    rw [aggBufferOfTrace_eq, List.map_append, List.map_append, joinAll_append,
      joinAll_append]
    have hI : joinAll ((List.map (fun p => Event.initCall p.id) providers).map
        (eventSection pid)) = "" := by
      apply joinAll_eq_empty_of
      intro s hs
      rcases List.mem_map.mp hs with ⟨e, he, hse⟩
      rcases List.mem_map.mp he with ⟨p, _, hpe⟩
      subst hpe
      exact hse.symm
    have hF : joinAll ((List.map (fun p => Event.finishCall p.id) providers).map
        (eventSection pid)) = "" := by
      apply joinAll_eq_empty_of
      intro s hs
      rcases List.mem_map.mp hs with ⟨e, he, hse⟩
      rcases List.mem_map.mp he with ⟨p, _, hpe⟩
      subst hpe
      exact hse.symm
    rw [hI, hF, String.empty_append, String.append_empty, joinAll_map_flatMap]
    have hpt : ∀ f, joinAll ((fileEvents providers rp f).map (eventSection pid))
        = if (filterProvidersForRule providers (rp f).1).any (fun p => p.id == pid)
          then "\n\n" ++ aggSection pid (cleanFrontMatter (rp f).1) (rp f).2
          else "" := by
      intro f
      show joinAll (eventSection pid (Event.readCall f)
        :: (((filterProvidersForRule providers (rp f).1).map _).map (eventSection pid))) = _
      rw [List.map_map]
      show "" ++ joinAll ((filterProvidersForRule providers (rp f).1).map
        (fun p => if p.id = pid
          then "\n\n" ++ aggSection pid (cleanFrontMatter (rp f).1) (rp f).2 else "")) = _
      rw [String.empty_append]
      exact joinAll_select pid _ _
        (List.Nodup.sublist ((filterProvidersForRule_sublist providers (rp f).1).map
          Provider.id) hnodup)
    simp only [hpt]
    rfl

/-- C10 witness: the section-order equality at a concrete one-provider,
one-file run. -/
theorem aggregate_sections_in_discovery_order_witness :
    aggBufferOfTrace "claude"
        [Event.initCall "claude", Event.readCall "a.md",
          Event.handleCall "claude" "a.md" [("title", YamlVal.str "T")] "body",
          Event.finishCall "claude"]
      = orderedRender "claude" [{ id := "claude" }] ["a.md"]
          (fun _ => ([("title", YamlVal.str "T")], "body"))
    ∧ aggFinishFile (aggBufferOfTrace "claude"
        [Event.initCall "claude", Event.readCall "a.md",
          Event.handleCall "claude" "a.md" [("title", YamlVal.str "T")] "body",
          Event.finishCall "claude"])
      = aggFinishFile (orderedRender "claude" [{ id := "claude" }] ["a.md"]
          (fun _ => ([("title", YamlVal.str "T")], "body"))) :=
  aggregate_sections_in_discovery_order [{ id := "claude" }] ["a.md"]
    (fun _ => ([("title", YamlVal.str "T")], "body")) "claude" _ (by decide) rfl

/-- C4 counterexample: one `handle` of body `"body"` then `finish` writes a
file ending in two newline characters, not exactly one. -/
theorem aggregate_trailing_newline_counterexample :
    aggRun "claude" [([("title", YamlVal.str "T")], "body")] = "## T\n\nbody\n\n"
    ∧ trailingNewlines (aggRun "claude" [([("title", YamlVal.str "T")], "body")]) = 2
    ∧ ¬(trailingNewlines (aggRun "claude" [([("title", YamlVal.str "T")], "body")]) = 1) :=
  ⟨rfl, rfl, by decide⟩

theorem append_data_head (a b : String) (c : Char) (l : List Char)
    (h : a.data = c :: l) : (a ++ b).data = c :: (l ++ b.data) := by
  rw [String.data_append, h]
  rfl

theorem exists_head_append (a b : String) (c : Char)
    (h : ∃ l, a.data = c :: l) : ∃ l, (a ++ b).data = c :: l := by
  obtain ⟨l, hl⟩ := h
  exact ⟨l ++ b.data, append_data_head a b c l hl⟩

theorem aggSection_head (pid : String) (fm : JsObj) (c : String) :
    ∃ l, (aggSection pid fm c).data = '#' :: l := by
  show ∃ l, (((aggHeader pid fm ++ "\n\n") ++ jsTrim c) ++ "\n").data = '#' :: l
  apply exists_head_append
  apply exists_head_append
  apply exists_head_append
  show ∃ l, ("## " ++ (jsCoalesceD
      (jsCoalesce (jsGet (providerMerge fm pid) "title")
        (jsGet (providerMerge fm pid) "description"))
      (YamlVal.str "Untitled")).display).data = '#' :: l
  apply exists_head_append
  exact ⟨['#', ' '], rfl⟩

theorem joinSep_head {α : Type} (g : α → String) (x : α) (r : List α)
    (hx : ∃ l, (g x).data = '#' :: l) :
    ∃ l, (joinSep "\n\n" ((x :: r).map g)).data = '#' :: l := by
  cases r with
  | nil => exact hx
  | cons y r' =>
    show ∃ l, ((g x ++ "\n\n") ++ joinSep "\n\n" ((y :: r').map g)).data = '#' :: l
    apply exists_head_append
    exact exists_head_append _ _ _ hx

theorem jsTrimStart_of_head (s : String) (c : Char) (l : List Char)
    (hd : s.data = c :: l) (hc : isJsWs c = false) :
    jsTrimStart ("\n\n" ++ s) = s := by
  have h2 : ("\n\n" ++ s).data = '\n' :: '\n' :: c :: l := by
    rw [String.data_append, hd]
    rfl
  show String.mk (List.dropWhile isJsWs ("\n\n" ++ s).data) = s
  rw [h2]
  have h3 : List.dropWhile isJsWs ('\n' :: '\n' :: c :: l) = c :: l := by
    show List.dropWhile isJsWs (c :: l) = c :: l
    rw [List.dropWhile_cons, hc]
    simp
  rw [h3, ← hd]

theorem joinAll_sep_prefixed {α : Type} (sep : String) (g : α → String) :
    ∀ (l : List α), l ≠ [] →
      joinAll (l.map (fun x => sep ++ g x)) = sep ++ joinSep sep (l.map g) := by
  intro l
  induction l with
  | nil => intro h; exact absurd rfl h
  | cons x r ih =>
    intro _
    cases r with
    | nil =>
      show (sep ++ g x) ++ "" = sep ++ g x
      rw [String.append_empty]
    | cons y r' =>
      have ihr := ih (List.cons_ne_nil _ _)
      show (sep ++ g x) ++ joinAll ((y :: r').map (fun z => sep ++ g z)) = _
      rw [ihr]
      show _ = sep ++ ((g x ++ sep) ++ joinSep sep ((y :: r').map g))
      rw [String.append_assoc, String.append_assoc]

theorem aggHandle_acc (pid : String) (b : String) (y : JsObj × String) :
    aggHandle pid b y.1 y.2 = b ++ ("\n\n" ++ aggSection pid y.1 y.2) := by
  simp [aggHandle, aggSection, String.append_assoc]

/-- C4 amended: an aggregate run writes exactly the ordered sections (each
heading followed by a blank line and the trimmed body) with `finish`'s extra
newline at the end; an empty run writes a single newline.  (As stated the
claim fails only on the trailing-newline count, see the counterexample.) -/
theorem aggregate_render_shape (pid : String) (inputs : List (JsObj × String)) :
    aggRun pid inputs = aggSpecRender pid inputs := by
  cases inputs with
  | nil => rfl
  | cons x r =>
    have h1 : (x :: r).foldl (fun b y => aggHandle pid b y.1 y.2) ""
        = "" ++ joinAll ((x :: r).map (fun y => "\n\n" ++ aggSection pid y.1 y.2)) :=
      foldl_acc_join _ _ (fun b y => aggHandle_acc pid b y) (x :: r) ""
    have h2 := joinAll_sep_prefixed "\n\n" (fun y => aggSection pid y.1 y.2) (x :: r)
      (List.cons_ne_nil _ _)
    have hhead : ∃ l, (joinSep "\n\n"
        ((x :: r).map (fun y => aggSection pid y.1 y.2))).data = '#' :: l := by
      apply joinSep_head
      exact aggSection_head pid x.1 x.2
    obtain ⟨l, hl⟩ := hhead
    have h3 : jsTrimStart ("\n\n" ++ joinSep "\n\n"
        ((x :: r).map (fun y => aggSection pid y.1 y.2)))
        = joinSep "\n\n" ((x :: r).map (fun y => aggSection pid y.1 y.2)) :=
      jsTrimStart_of_head _ '#' l hl rfl
    show aggFinishFile ((x :: r).foldl (fun b y => aggHandle pid b y.1 y.2) "") = _
    rw [h1, String.empty_append, h2]
    show jsTrimStart _ ++ "\n" = _
    rw [h3]
    rfl

/-- C5 counterexample: a rule whose only datum is an override-block
description gets the header `## D` from the code, while the claim's
priority chain (which skips override descriptions) demands `## Untitled`. -/
theorem aggregate_header_priority_counterexample :
    aggHeader "claude" [("claude", YamlVal.obj [("description", YamlVal.str "D")])] = "## D"
    ∧ "## " ++ (claimHeaderVal "claude"
        [("claude", YamlVal.obj [("description", YamlVal.str "D")])]).display = "## Untitled"
    ∧ ¬(aggHeader "claude" [("claude", YamlVal.obj [("description", YamlVal.str "D")])]
        = "## " ++ (claimHeaderVal "claude"
            [("claude", YamlVal.obj [("description", YamlVal.str "D")])]).display) :=
  ⟨rfl, rfl, by decide⟩

/-- C5 amended: the aggregate heading is `## ` followed by the merged title
if present (override block winning key-for-key), else the merged
description, else `Untitled`; in particular a rule with no title, no
description and no override yields `## Untitled`. -/
theorem aggregate_header_priority (pid : String) (fm : JsObj) :
    aggHeader pid fm = "## " ++ (amendedHeaderVal pid fm).display
    ∧ aggHeader pid ([] : JsObj) = "## Untitled" := by
  constructor
  · unfold aggHeader amendedHeaderVal overrideBlock providerMerge
    cases hv : jsGet fm pid with
    | none => simp [jsGet, oOr]
    | some v =>
      cases v with
      | obj sub => rw [jsGet_append, jsGet_append]
      | str s => simp [jsGet, oOr]
      | bool b => simp [jsGet, oOr]
      | num n => simp [jsGet, oOr]
      | null => simp [jsGet, oOr]
      | arr items => simp [jsGet, oOr]
  · rfl

theorem jsGet_snoc (o : JsObj) (k : String) (v : YamlVal) :
    jsGet (o ++ [(k, v)]) k = some v := by
  rw [jsGet_append]
  have h1 : jsGet [(k, v)] k = some v := by simp [jsGet]
  rw [h1]
  rfl

theorem jsCoalesce_some_of_ne_null (v : YamlVal) (b : Option YamlVal)
    (h : ¬(v = YamlVal.null)) : jsCoalesce (some v) b = some v := by
  cases v with
  | null => exact absurd rfl h
  | str s => rfl
  | bool c => rfl
  | num n => rfl
  | arr items => rfl
  | obj fields => rfl

/-- C6: over the merged (effective) cursor front-matter, `alwaysApply: true`
with no explicit retrieval-strategy value synthesizes
`retrieval-strategy: always` in the written object, while any present
non-null retrieval-strategy value is written unchanged whatever
`alwaysApply` is. -/
theorem cursor_retrieval_strategy (filename : String) (fm : JsObj) :
    ((jsGet (providerMerge fm "cursor") "alwaysApply" = some (YamlVal.bool true)) →
      (jsGet (providerMerge fm "cursor") "retrieval-strategy" = none
        ∨ jsGet (providerMerge fm "cursor") "retrieval-strategy" = some YamlVal.null) →
      jsGet (cursorOutput filename fm) "retrieval-strategy" = some (YamlVal.str "always"))
    ∧ ∀ v : YamlVal, jsGet (providerMerge fm "cursor") "retrieval-strategy" = some v →
        ¬(v = YamlVal.null) →
        jsGet (cursorOutput filename fm) "retrieval-strategy" = some v := by
  constructor
  · intro ha hrs
    have hcr : cursorRetrieval (providerMerge fm "cursor") = some (YamlVal.str "always") := by
      unfold cursorRetrieval
      rw [ha]
      cases hrs with
      | inl h => rw [h]; rfl
      | inr h => rw [h]; rfl
    unfold cursorOutput
    rw [hcr]
    exact jsGet_snoc _ _ _
  · intro v hv hne
    have hcr : cursorRetrieval (providerMerge fm "cursor") = some v := by
      unfold cursorRetrieval
      rw [hv]
      exact jsCoalesce_some_of_ne_null v _ hne
    unfold cursorOutput
    rw [hcr]
    exact jsGet_snoc _ _ _

/-- C6 witness: `alwaysApply: true` alone yields `"always"`; an explicit
override `"never"` under the `cursor` block wins over the boolean. -/
theorem cursor_retrieval_strategy_witness :
    jsGet (cursorOutput "test.md" [("alwaysApply", YamlVal.bool true)])
      "retrieval-strategy" = some (YamlVal.str "always")
    ∧ jsGet (cursorOutput "test.md"
        [("alwaysApply", YamlVal.bool true),
          ("cursor", YamlVal.obj [("retrieval-strategy", YamlVal.str "never")])])
      "retrieval-strategy" = some (YamlVal.str "never") :=
  ⟨(cursor_retrieval_strategy "test.md" [("alwaysApply", YamlVal.bool true)]).1
      rfl (Or.inl rfl),
    (cursor_retrieval_strategy "test.md"
        [("alwaysApply", YamlVal.bool true),
          ("cursor", YamlVal.obj [("retrieval-strategy", YamlVal.str "never")])]).2
      (YamlVal.str "never") rfl (fun h => YamlVal.noConfusion h)⟩
